import Mathlib

/-!
Verification of the retrieval orchestration core of `knowledge-table`
(`backend/src/knowledge_table_api/services/vector_index/qdrant.py`).

The Point Store (Qdrant client), embedding provider, keyword extractor and
query decomposer are external collaborators; they are modelled as an abstract
`PointStore` structure together with the narrow contract `StoreOk` the spec
assigns to the store (result size bounded by the `limit` argument, and the
`document_id` filter honoured).  The orchestration code itself — per-query
similarity invocation, concatenation, keyword counting and sorting, the
chunk-number sort, and the first-occurrence deduplication loops — is
translated directly from the Python source.
-/

namespace KnowledgeTable

/-- Payload stored with each point: the fields of a chunk record
(`document_id`, `chunk_number`, `page_number`, `text`). -/
structure Payload where
  document_id : String
  chunk_number : Nat
  page_number : Nat
  text : String
deriving DecidableEq

/-- Externally visible chunk shape `{content, page}` produced by the
formatting step of both search loops. -/
structure Chunk where
  content : String
  page : Nat
deriving DecidableEq

/-- Formatting of one payload into the output shape, as in
`{"content": chunk["text"], "page": chunk["page_number"]}`. -/
def formatChunk (p : Payload) : Chunk :=
  { content := p.text, page := p.page_number }

/-- Abstract Point Store.  `similarity q d k` is the payload list returned by
`client.query_points` for query `q` under the `document_id = d` filter with
`limit = k`, in similarity order.  `text_match d ks` is the payload list
returned by the filtered (unranked) keyword lookup scoped to `d` matching any
keyword of `ks`.  `deletePoints d` models `client.delete` under the
`document_id = d` filter; `none` models a raised store exception. -/
structure PointStore where
  similarity : String → String → Nat → List Payload
  text_match : String → List String → List Payload
  deletePoints : String → Option Unit

/-- Contract of the Point Store assumed by the spec: a similarity search
returns at most `limit` payloads and honours the `document_id` filter, and the
keyword lookup honours the `document_id` filter. -/
structure StoreOk (s : PointStore) : Prop where
  sim_len : ∀ q d k, (s.similarity q d k).length ≤ k
  sim_doc : ∀ q d k, ∀ p ∈ s.similarity q d k, p.document_id = d
  tm_doc : ∀ d ks, ∀ p ∈ s.text_match d ks, p.document_id = d

/-- Deduplication-and-formatting loop shared by `vector_search` and
`hybrid_search`: scan the payload list, skip a payload whose `chunk_number`
is already in `seen`, otherwise emit its `{content, page}` pair and record
the `chunk_number`. -/
def dedupFormat (seen : List Nat) : List Payload → List Chunk
  | [] => []
  | c :: rest =>
    if c.chunk_number ∈ seen then dedupFormat seen rest
    else formatChunk c :: dedupFormat (c.chunk_number :: seen) rest

/-- Payloads kept by the deduplication loop (the originating payloads of the
emitted chunks), in emission order. -/
def keptPayloads (seen : List Nat) : List Payload → List Payload
  | [] => []
  | c :: rest =>
    if c.chunk_number ∈ seen then keptPayloads seen rest
    else c :: keptPayloads (c.chunk_number :: seen) rest

/-- Concatenation, in query order, of the per-query similarity responses
(each capped at 40), as built by the `final_chunks.extend(...)` loop of
`vector_search`. -/
def finalChunks (store : PointStore) (queries : List String)
    (document_id : String) : List Payload :=
  (queries.map (fun query => store.similarity query document_id 40)).flatten

/-- Translation of `vector_search`: concatenate the per-query similarity
responses, then deduplicate by `chunk_number` keeping first occurrences. -/
def vector_search (store : PointStore) (queries : List String)
    (document_id : String) : List Chunk :=
  dedupFormat [] (finalChunks store queries document_id)

/-- Python `str.count` scanner for a non-empty pattern: structural scan of
the text; on a match, count it and skip the remaining `pat.length - 1`
characters of the match (non-overlapping count). -/
def countAux : List Char → List Char → Nat → Nat
  | [], _, _ => 0
  | _ :: rest, pat, Nat.succ k => countAux rest pat k
  | c :: rest, pat, 0 =>
    if pat.isPrefixOf (c :: rest) then countAux rest pat (pat.length - 1) + 1
    else countAux rest pat 0

/-- Python `s.count(pat)`: number of non-overlapping occurrences of `pat` in
`s`; an empty pattern yields `s.length + 1` as in Python. -/
def pyCount (s pat : List Char) : Nat :=
  if pat.length = 0 then s.length + 1 else countAux s pat 0

/-- Character-wise lowercasing, modelling Python `str.lower()`. -/
def lowerChars (s : String) : List Char :=
  s.data.map Char.toLower

/-- Translation of the inner `count_keywords` helper of `hybrid_search`:
`sum(text.lower().count(keyword.lower()) for keyword in keywords)`. -/
def count_keywords (text : String) (keywords : List String) : Nat :=
  (keywords.map (fun keyword => pyCount (lowerChars text) (lowerChars keyword))).sum

/-- Comparison used by the keyword-phase sort: descending stable order by
`count_keywords` score (`sorted(..., key=count_keywords, reverse=True)`). -/
def byScoreDesc (keywords : List String) (a b : Payload) : Bool :=
  count_keywords b.text keywords ≤ count_keywords a.text keywords

/-- Comparison used by the final hybrid sort: ascending by `chunk_number`. -/
def byChunkNumber (a b : Payload) : Bool :=
  a.chunk_number ≤ b.chunk_number

/-- Keyword phase of `hybrid_search`: empty when no keywords were extracted
(the `if keywords:` guard), otherwise the text-match response sorted by
keyword-count score, descending and stable. -/
def sortedKeywordChunks (store : PointStore) (document_id : String)
    (keywords : List String) : List Payload :=
  if keywords.isEmpty then []
  else (store.text_match document_id keywords).mergeSort (byScoreDesc keywords)

/-- Semantic phase of `hybrid_search`: similarity search for the query,
scoped to the document, `limit = 40`. -/
def semanticResponse (store : PointStore) (query : String)
    (document_id : String) : List Payload :=
  store.similarity query document_id 40

/-- Merge step of `hybrid_search`:
`sorted_keyword_chunks[:20] + semantic_response`. -/
def combinedChunks (store : PointStore) (query document_id : String)
    (keywords : List String) : List Payload :=
  (sortedKeywordChunks store document_id keywords).take 20
    ++ semanticResponse store query document_id

/-- Final ordering step of `hybrid_search`: stable sort of the merged list,
ascending by `chunk_number`. -/
def combinedSortedChunks (store : PointStore) (query document_id : String)
    (keywords : List String) : List Payload :=
  (combinedChunks store query document_id keywords).mergeSort byChunkNumber

/-- Translation of `hybrid_search` (keywords are the extractor's output,
passed in as a parameter): keyword phase, semantic phase, merge, sort by
`chunk_number`, deduplicate keeping first occurrences, format. -/
def hybrid_search (store : PointStore) (query document_id : String)
    (keywords : List String) : List Chunk :=
  dedupFormat [] (combinedSortedChunks store query document_id keywords)

/-- Result shape of `decomposed_search`. -/
structure DecomposedResult where
  sub_queries : List String
  chunks : List Chunk
deriving DecidableEq

/-- Translation of `decomposed_search` (the decomposer's sub-query list is
passed in as a parameter): run `vector_search` on the sub-queries and return
them together with the resulting chunks. -/
def decomposed_search (store : PointStore) (decomposition_response : List String)
    (document_id : String) : DecomposedResult :=
  { sub_queries := decomposition_response
    chunks := vector_search store decomposition_response document_id }

/-- Status field of the delete result shape. -/
inductive DeleteStatus where
  | success
  | error
deriving DecidableEq

/-- Result shape of `delete_document`. -/
structure DeleteResult where
  status : DeleteStatus
  message : String
deriving DecidableEq

/-- Translation of `delete_document`: issue the filtered delete; a store
failure propagates (`none`), otherwise return the fixed success value. -/
def delete_document (store : PointStore) (document_id : String) :
    Option DeleteResult :=
  match store.deletePoints document_id with
  | none => none
  | some _ =>
    some { status := DeleteStatus.success
           message := "Document deleted successfully." }

/-- Specification-side description of a pure semantic search for one query:
the semantic similarity response, sorted ascending by `chunk_number` and
deduplicated by `chunk_number`. -/
def pureSemanticSearchSpec (store : PointStore) (query document_id : String) :
    List Chunk :=
  dedupFormat [] ((semanticResponse store query document_id).mergeSort byChunkNumber)

/-- Trivial store: every lookup is empty and deletion succeeds. -/
def trivStore : PointStore :=
  { similarity := fun _ _ _ => []
    text_match := fun _ _ => []
    deletePoints := fun _ => some () }

/-- Payload used by Scenario B: chunk 1 of document D. -/
def pB1 : Payload :=
  { document_id := "D", chunk_number := 1, page_number := 1, text := "c1" }

/-- Payload used by Scenario B: chunk 3 of document D. -/
def pB3 : Payload :=
  { document_id := "D", chunk_number := 3, page_number := 1, text := "c3" }

/-- Payload used by Scenario B: chunk 5 of document D. -/
def pB5 : Payload :=
  { document_id := "D", chunk_number := 5, page_number := 2, text := "c5" }

/-- Store realizing Scenario B of the spec: query q1 matches chunks 3 then 1
in similarity order, query q2 matches chunks 1 then 5. -/
def storeB : PointStore :=
  { similarity := fun query _ _ =>
      if query = "q1" then [pB3, pB1]
      else if query = "q2" then [pB1, pB5] else []
    text_match := fun _ _ => []
    deletePoints := fun _ => some () }

/-- Keyword-origin payload for the tie-breaking scenario: chunk 1 of
document D whose text matches the keyword. -/
def pK1 : Payload :=
  { document_id := "D", chunk_number := 1, page_number := 1, text := "foo" }

/-- Semantic-origin payload for the tie-breaking scenario: a distinct copy of
chunk 1 of document D. -/
def pS1 : Payload :=
  { document_id := "D", chunk_number := 1, page_number := 2, text := "bar" }

/-- Store for the tie-breaking scenario: chunk 1 is found both by the keyword
lookup (as `pK1`) and by the semantic search (as `pS1`). -/
def storeC5 : PointStore :=
  { similarity := fun _ _ _ => [pS1]
    text_match := fun _ _ => [pK1]
    deletePoints := fun _ => some () }

/-! ### Basic properties of the deduplication loop -/

/-- Emitted chunks are exactly the kept payloads, formatted. -/
theorem dedupFormat_eq_map (seen : List Nat) (l : List Payload) :
    dedupFormat seen l = (keptPayloads seen l).map formatChunk := by
  induction l generalizing seen with
  | nil => rfl
  | cons c rest ih =>
    simp only [dedupFormat, keptPayloads]
    by_cases h : c.chunk_number ∈ seen
    · simp [h, ih]
    · simp [h, ih]

/-- Kept payloads form a sublist of the scanned list (order preserved). -/
theorem keptPayloads_sublist (seen : List Nat) (l : List Payload) :
    List.Sublist (keptPayloads seen l) l := by
  induction l generalizing seen with
  | nil => simp [keptPayloads]
  | cons c rest ih =>
    simp only [keptPayloads]
    by_cases h : c.chunk_number ∈ seen
    · simp only [h, if_pos]
      exact (ih seen).cons c
    · simp only [h, if_neg, not_false_iff]
      exact (ih (c.chunk_number :: seen)).cons₂ c

/-- No kept payload carries a chunk number that was already seen. -/
theorem keptPayloads_not_seen (seen : List Nat) (l : List Payload) :
    ∀ p ∈ keptPayloads seen l, p.chunk_number ∉ seen := by
  induction l generalizing seen with
  | nil => simp [keptPayloads]
  | cons c rest ih =>
    intro p hp
    simp only [keptPayloads] at hp
    by_cases h : c.chunk_number ∈ seen
    · rw [if_pos h] at hp
      exact ih seen p hp
    · rw [if_neg h] at hp
      rcases List.mem_cons.mp hp with rfl | hp
      · exact h
      · have := ih (c.chunk_number :: seen) p hp
        exact fun hmem => this (List.mem_cons_of_mem _ hmem)

/-- Chunk numbers of the kept payloads are pairwise distinct. -/
theorem keptPayloads_nodup (seen : List Nat) (l : List Payload) :
    ((keptPayloads seen l).map Payload.chunk_number).Nodup := by
  induction l generalizing seen with
  | nil => simp [keptPayloads]
  | cons c rest ih =>
    simp only [keptPayloads]
    by_cases h : c.chunk_number ∈ seen
    · simpa [h] using ih seen
    · rw [if_neg h]
      simp only [List.map_cons, List.nodup_cons]
      refine ⟨?_, ih (c.chunk_number :: seen)⟩
      intro hmem
      rcases List.mem_map.mp hmem with ⟨q, hq, hqc⟩
      exact keptPayloads_not_seen _ _ q hq (hqc ▸ List.mem_cons_self _ _)

/-- Every scanned payload whose chunk number was not already seen is
represented among the kept payloads by a payload with the same chunk
number. -/
theorem keptPayloads_covers (seen : List Nat) (l : List Payload) :
    ∀ p ∈ l, p.chunk_number ∈ seen ∨
      ∃ q ∈ keptPayloads seen l, q.chunk_number = p.chunk_number := by
  induction l generalizing seen with
  | nil => simp
  | cons c rest ih =>
    intro p hp
    simp only [keptPayloads]
    by_cases h : c.chunk_number ∈ seen
    · rw [if_pos h]
      rcases List.mem_cons.mp hp with rfl | hp
      · exact Or.inl h
      · exact ih seen p hp
    · rw [if_neg h]
      rcases List.mem_cons.mp hp with heq | hp
      · exact Or.inr ⟨c, List.mem_cons_self _ _, by rw [heq]⟩
      · rcases ih (c.chunk_number :: seen) p hp with hmem | ⟨q, hq, hqc⟩
        · rcases List.mem_cons.mp hmem with heq | hmem
          · exact Or.inr ⟨c, List.mem_cons_self _ _, heq.symm⟩
          · exact Or.inl hmem
        · exact Or.inr ⟨q, List.mem_cons_of_mem _ hq, hqc⟩

/-- A kept payload is the first scanned payload bearing its chunk number. -/
theorem keptPayloads_find? (seen : List Nat) (l : List Payload) (q : Payload)
    (hq : q ∈ keptPayloads seen l) :
    l.find? (fun p => p.chunk_number == q.chunk_number) = some q := by
  induction l generalizing seen with
  | nil => simp [keptPayloads] at hq
  | cons c rest ih =>
    have hqs : q.chunk_number ∉ seen := keptPayloads_not_seen seen _ q hq
    simp only [keptPayloads] at hq
    by_cases h : c.chunk_number ∈ seen
    · rw [if_pos h] at hq
      have hne : (c.chunk_number == q.chunk_number) = false := by
        simp only [beq_eq_false_iff_ne, ne_eq]
        intro heq
        exact hqs (heq ▸ h)
      rw [List.find?_cons, hne]
      exact ih seen hq
    · rw [if_neg h] at hq
      rcases List.mem_cons.mp hq with rfl | hq
      · rw [List.find?_cons]
        simp
      · have hqs' : q.chunk_number ∉ c.chunk_number :: seen :=
          keptPayloads_not_seen (c.chunk_number :: seen) _ q hq
        have hne : (c.chunk_number == q.chunk_number) = false := by
          simp only [beq_eq_false_iff_ne, ne_eq]
          intro heq
          exact hqs' (heq ▸ List.mem_cons_self _ _)
        rw [List.find?_cons, hne]
        exact ih (c.chunk_number :: seen) hq

/-! ### Properties of the sort comparators and stability of the sorts -/

/-- Transitivity of the chunk-number comparison. -/
theorem byChunkNumber_trans :
    ∀ a b c, byChunkNumber a b → byChunkNumber b c → byChunkNumber a c := by
  intro a b c hab hbc
  simp only [byChunkNumber, decide_eq_true_eq] at hab hbc ⊢
  omega

/-- Totality of the chunk-number comparison. -/
theorem byChunkNumber_total :
    ∀ a b, byChunkNumber a b || byChunkNumber b a := by
  intro a b
  simp only [byChunkNumber, Bool.or_eq_true, decide_eq_true_eq]
  omega

/-- Transitivity of the descending keyword-score comparison. -/
theorem byScoreDesc_trans (keywords : List String) :
    ∀ a b c, byScoreDesc keywords a b → byScoreDesc keywords b c →
      byScoreDesc keywords a c := by
  intro a b c hab hbc
  simp only [byScoreDesc, decide_eq_true_eq] at hab hbc ⊢
  omega

/-- Totality of the descending keyword-score comparison. -/
theorem byScoreDesc_total (keywords : List String) :
    ∀ a b, byScoreDesc keywords a b || byScoreDesc keywords b a := by
  intro a b
  simp only [byScoreDesc, Bool.or_eq_true, decide_eq_true_eq]
  omega

/-- The first element satisfying a predicate is the head of the filtered
list. -/
theorem find?_eq_head?_filter {α : Type} (p : α → Bool) (l : List α) :
    l.find? p = (l.filter p).head? := by
  induction l with
  | nil => rfl
  | cons a l ih =>
    by_cases h : p a
    · rw [List.find?_cons_of_pos _ h, List.filter_cons_of_pos h, List.head?_cons]
    · rw [List.find?_cons_of_neg _ h, List.filter_cons_of_neg h, ih]

/-- Stability of `mergeSort`, phrased through filters: elements on which the
comparison always answers `true` in both directions (a tie class) keep their
original relative order, so filtering the sorted list by the tie class gives
the filter of the input. -/
theorem filter_mergeSort_of_ties {α : Type} (le : α → α → Bool)
    (trans : ∀ a b c, le a b → le b c → le a c)
    (total : ∀ a b, le a b || le b a)
    (P : α → Bool) (hP : ∀ a b, P a → P b → le a b) (l : List α) :
    (l.mergeSort le).filter P = l.filter P := by
  have hpair : (l.filter P).Pairwise (fun a b => le a b) :=
    List.pairwise_of_forall_mem_list (fun a ha b hb =>
      hP a b (List.of_mem_filter ha) (List.of_mem_filter hb))
  have hsub : List.Sublist (l.filter P) l := List.filter_sublist l
  have h1 : List.Sublist (l.filter P) (l.mergeSort le) :=
    List.sublist_mergeSort trans total hpair hsub
  have h2 : List.Sublist (l.filter P) ((l.mergeSort le).filter P) := by
    have h3 := h1.filter P
    rwa [List.filter_eq_self.mpr (fun a ha => List.of_mem_filter ha)] at h3
  have hperm : List.Perm ((l.mergeSort le).filter P) (l.filter P) :=
    (l.mergeSort_perm le).filter P
  exact (h2.eq_of_length hperm.length_eq.symm).symm

/-- Contract proof for the trivial store. -/
theorem trivStore_ok : StoreOk trivStore := by
  constructor <;> simp [trivStore]

/-! ### Claims -/

/-- C1: every result list of `vector_search` or `hybrid_search` is the
formatting of its kept originating payloads, and those payloads carry
pairwise distinct `chunk_number` values — no two entries of one result share
the same originating `chunk_number`. -/
theorem claim_C1_dedup_invariant (store : PointStore) (queries : List String)
    (query document_id : String) (keywords : List String) :
    (vector_search store queries document_id =
        (keptPayloads [] (finalChunks store queries document_id)).map formatChunk ∧
      ((keptPayloads [] (finalChunks store queries document_id)).map
          Payload.chunk_number).Nodup) ∧
    (hybrid_search store query document_id keywords =
        (keptPayloads []
            (combinedSortedChunks store query document_id keywords)).map formatChunk ∧
      ((keptPayloads [] (combinedSortedChunks store query document_id keywords)).map
          Payload.chunk_number).Nodup) :=
  ⟨⟨dedupFormat_eq_map [] _, keptPayloads_nodup [] _⟩,
   ⟨dedupFormat_eq_map [] _, keptPayloads_nodup [] _⟩⟩

/-- C2: the entries of a `hybrid_search` result appear in ascending order of
the `chunk_number` of their originating payloads (stated for all results; in
particular it holds for the non-empty ones). -/
theorem claim_C2_hybrid_ordering (store : PointStore)
    (query document_id : String) (keywords : List String) :
    hybrid_search store query document_id keywords =
      (keptPayloads []
          (combinedSortedChunks store query document_id keywords)).map formatChunk ∧
    (keptPayloads [] (combinedSortedChunks store query document_id keywords)).Pairwise
      (fun a b => a.chunk_number ≤ b.chunk_number) := by
  refine ⟨dedupFormat_eq_map [] _, ?_⟩
  have hsorted : (combinedSortedChunks store query document_id keywords).Pairwise
      (fun a b => byChunkNumber a b) :=
    List.sorted_mergeSort byChunkNumber_trans byChunkNumber_total
      (combinedChunks store query document_id keywords)
  have hsub := keptPayloads_sublist []
    (combinedSortedChunks store query document_id keywords)
  exact (List.Pairwise.sublist hsub hsorted).imp
    (fun h => by simpa [byChunkNumber] using h)

/-- C6: with an empty extracted keyword set, `hybrid_search` degenerates to
the pure semantic similarity result for the same query, deduplicated by
`chunk_number` and sorted ascending by `chunk_number`. -/
theorem claim_C6_empty_keyword_degeneration (store : PointStore)
    (query document_id : String) :
    hybrid_search store query document_id [] =
      pureSemanticSearchSpec store query document_id := rfl

/-- C9: `decomposed_search` returns the decomposer's sub-query list unchanged
in `sub_queries`, its `chunks` field equals the `vector_search` result for
that sub-query list and document, and an empty sub-query list yields an empty
chunk list. -/
theorem claim_C9_decomposed_search (store : PointStore)
    (subs : List String) (document_id : String) :
    (decomposed_search store subs document_id).sub_queries = subs ∧
    (decomposed_search store subs document_id).chunks =
      vector_search store subs document_id ∧
    (decomposed_search store [] document_id).chunks = [] :=
  ⟨rfl, rfl, rfl⟩

/-- C10: whenever `delete_document` returns a result at all, that result is
exactly `{status: success, message: "Document deleted successfully."}`; the
`error` status is never produced, store failures propagate as `none`. -/
theorem claim_C10_delete_result (store : PointStore) (document_id : String)
    (r : DeleteResult) (h : delete_document store document_id = some r) :
    r.status = DeleteStatus.success ∧
    r.message = "Document deleted successfully." := by
  unfold delete_document at h
  cases hd : store.deletePoints document_id with
  | none =>
    rw [hd] at h
    exact absurd h (by simp)
  | some u =>
    rw [hd] at h
    simp only [Option.some.injEq] at h
    subst h
    exact ⟨rfl, rfl⟩

/-- Witness for C10: the trivial store's delete returns the success value,
and the theorem applies to it. -/
theorem claim_C10_delete_result_witness :
    delete_document trivStore "D" =
      some { status := DeleteStatus.success
             message := "Document deleted successfully." } ∧
    (({ status := DeleteStatus.success
        message := "Document deleted successfully." } : DeleteResult).status =
        DeleteStatus.success ∧
      ({ status := DeleteStatus.success
         message := "Document deleted successfully." } : DeleteResult).message =
        "Document deleted successfully.") :=
  ⟨rfl, claim_C10_delete_result trivStore "D" _ rfl⟩

/-- C3: `vector_search` concatenates the per-query similarity responses in
query order, keeps the first occurrence of each `chunk_number` in
concatenation order (each kept payload is the first of its chunk number, and
every payload is represented), and emits the kept chunks in first-occurrence
order — a sublist of the concatenation, never re-sorted.  Concretely,
Scenario B with q1 matching chunks [3, 1] and q2 matching [1, 5] yields the
chunk order [3, 1, 5]. -/
theorem claim_C3_vector_search_fusion (store : PointStore)
    (queries : List String) (document_id : String) :
    (vector_search store queries document_id =
      (keptPayloads [] (finalChunks store queries document_id)).map formatChunk) ∧
    (finalChunks store queries document_id =
      (queries.map (fun q => store.similarity q document_id 40)).flatten) ∧
    List.Sublist (keptPayloads [] (finalChunks store queries document_id))
      (finalChunks store queries document_id) ∧
    (∀ q ∈ keptPayloads [] (finalChunks store queries document_id),
      (finalChunks store queries document_id).find?
        (fun p => p.chunk_number == q.chunk_number) = some q) ∧
    (∀ p ∈ finalChunks store queries document_id,
      ∃ q ∈ keptPayloads [] (finalChunks store queries document_id),
        q.chunk_number = p.chunk_number) ∧
    vector_search storeB ["q1", "q2"] "D" =
      [{ content := "c3", page := 1 }, { content := "c1", page := 1 },
        { content := "c5", page := 2 }] := by
  refine ⟨dedupFormat_eq_map [] _, rfl, keptPayloads_sublist [] _, ?_, ?_, ?_⟩
  · intro q hq
    exact keptPayloads_find? [] _ q hq
  · intro p hp
    rcases keptPayloads_covers [] _ p hp with hmem | hrep
    · simp at hmem
    · exact hrep
  · rfl

/-- C4: at most 20 keyword-origin chunks enter the hybrid merge, and under
the store contract every similarity search — each query of `vector_search`
and the semantic phase of `hybrid_search` — returns at most 40 chunks. -/
theorem claim_C4_caps (store : PointStore) (queries : List String)
    (query document_id : String) (keywords : List String)
    (h : StoreOk store) :
    ((sortedKeywordChunks store document_id keywords).take 20).length ≤ 20 ∧
    (∀ q ∈ queries, (store.similarity q document_id 40).length ≤ 40) ∧
    (semanticResponse store query document_id).length ≤ 40 := by
  refine ⟨?_, fun q _ => h.sim_len q document_id 40, h.sim_len query document_id 40⟩
  rw [List.length_take]
  omega

/-- Witness for C4: the trivial store satisfies the contract, and the caps
hold for it at concrete arguments. -/
theorem claim_C4_caps_witness :
    StoreOk trivStore ∧
    (((sortedKeywordChunks trivStore "D" ["k"]).take 20).length ≤ 20 ∧
      (∀ q ∈ ["q"], (trivStore.similarity q "D" 40).length ≤ 40) ∧
      (semanticResponse trivStore "q" "D").length ≤ 40) :=
  ⟨trivStore_ok, claim_C4_caps trivStore ["q"] "q" "D" ["k"] trivStore_ok⟩

/-- C8: under the store contract, every kept originating payload of a
`vector_search` or `hybrid_search` result, and every payload of the keyword
phase, carries the queried `document_id`. -/
theorem claim_C8_document_scoping (store : PointStore) (queries : List String)
    (query document_id : String) (keywords : List String)
    (h : StoreOk store) :
    (∀ p ∈ keptPayloads [] (finalChunks store queries document_id),
      p.document_id = document_id) ∧
    (∀ p ∈ keptPayloads [] (combinedSortedChunks store query document_id keywords),
      p.document_id = document_id) ∧
    (∀ p ∈ store.text_match document_id keywords, p.document_id = document_id) := by
  refine ⟨?_, ?_, fun p hp => h.tm_doc document_id keywords p hp⟩
  · intro p hp
    have hp1 := (keptPayloads_sublist [] _).subset hp
    rcases List.mem_flatten.mp hp1 with ⟨l, hl, hpl⟩
    rcases List.mem_map.mp hl with ⟨q, hq, rfl⟩
    exact h.sim_doc q document_id 40 p hpl
  · intro p hp
    have hp1 := (keptPayloads_sublist [] _).subset hp
    have hp2 : p ∈ combinedChunks store query document_id keywords :=
      List.mem_mergeSort.mp hp1
    rcases List.mem_append.mp hp2 with hk | hs
    · have hk1 : p ∈ sortedKeywordChunks store document_id keywords :=
        List.mem_of_mem_take hk
      by_cases hke : keywords.isEmpty
      · simp [sortedKeywordChunks, hke] at hk1
      · simp only [sortedKeywordChunks, hke, Bool.false_eq_true, if_false] at hk1
        exact h.tm_doc document_id keywords p (List.mem_mergeSort.mp hk1)
    · exact h.sim_doc query document_id 40 p hs

/-- Witness for C8: the trivial store satisfies the contract, and document
scoping holds for it at concrete arguments. -/
theorem claim_C8_document_scoping_witness :
    StoreOk trivStore ∧
    ((∀ p ∈ keptPayloads [] (finalChunks trivStore ["q"] "D"),
        p.document_id = "D") ∧
      (∀ p ∈ keptPayloads [] (combinedSortedChunks trivStore "q" "D" ["k"]),
        p.document_id = "D") ∧
      (∀ p ∈ trivStore.text_match "D" ["k"], p.document_id = "D")) :=
  ⟨trivStore_ok, claim_C8_document_scoping trivStore ["q"] "q" "D" ["k"] trivStore_ok⟩

/-- Two kept payloads with the same chunk number coincide. -/
theorem keptPayloads_unique (l : List Payload) (q r : Payload)
    (hq : q ∈ keptPayloads [] l) (hr : r ∈ keptPayloads [] l)
    (hqr : q.chunk_number = r.chunk_number) : q = r := by
  have h1 := keptPayloads_find? [] l q hq
  have h2 := keptPayloads_find? [] l r hr
  rw [hqr] at h1
  rw [h1] at h2
  exact Option.some.inj h2

/-- C7: with a non-empty keyword set, the keyword phase is a permutation of
the text-match response ordered descending by the `count_keywords` score —
the sum over all keywords of the case-insensitive occurrence counts — and
ties keep the original retrieval order (filtering by any fixed score value
returns the retrieval-order sublist unchanged).  Two concrete evaluations pin
down the score: case-insensitive counting, and summing across keywords. -/
theorem claim_C7_keyword_scoring (store : PointStore) (document_id : String)
    (keywords : List String) (h : keywords ≠ []) :
    List.Perm (sortedKeywordChunks store document_id keywords)
      (store.text_match document_id keywords) ∧
    (sortedKeywordChunks store document_id keywords).Pairwise
      (fun a b => count_keywords b.text keywords ≤ count_keywords a.text keywords) ∧
    (∀ v : Nat,
      (sortedKeywordChunks store document_id keywords).filter
          (fun p => count_keywords p.text keywords == v) =
        (store.text_match document_id keywords).filter
          (fun p => count_keywords p.text keywords == v)) ∧
    count_keywords "Foo foo FOO" ["foo"] = 3 ∧
    count_keywords "ab ab" ["ab", "b"] = 4 := by
  have hke : keywords.isEmpty = false := by
    cases keywords with
    | nil => exact absurd rfl h
    | cons a l => rfl
  have hdef : sortedKeywordChunks store document_id keywords =
      (store.text_match document_id keywords).mergeSort (byScoreDesc keywords) := by
    simp [sortedKeywordChunks, hke]
  refine ⟨?_, ?_, ?_, by decide, by decide⟩
  · rw [hdef]
    exact List.mergeSort_perm _ _
  · rw [hdef]
    exact (List.sorted_mergeSort (byScoreDesc_trans keywords)
      (byScoreDesc_total keywords) _).imp
      (fun hab => by simpa [byScoreDesc] using hab)
  · intro v
    rw [hdef]
    exact filter_mergeSort_of_ties (byScoreDesc keywords)
      (byScoreDesc_trans keywords) (byScoreDesc_total keywords)
      (fun p => count_keywords p.text keywords == v)
      (fun a b ha hb => by
        simp only [beq_iff_eq] at ha hb
        simp [byScoreDesc, ha, hb])
      (store.text_match document_id keywords)

/-- Witness for C7: a non-empty keyword list, and the conclusion for it at
the trivial store. -/
theorem claim_C7_keyword_scoring_witness :
    (["k"] : List String) ≠ [] ∧
    (List.Perm (sortedKeywordChunks trivStore "D" ["k"])
        (trivStore.text_match "D" ["k"]) ∧
      (sortedKeywordChunks trivStore "D" ["k"]).Pairwise
        (fun a b => count_keywords b.text ["k"] ≤ count_keywords a.text ["k"]) ∧
      (∀ v : Nat,
        (sortedKeywordChunks trivStore "D" ["k"]).filter
            (fun p => count_keywords p.text ["k"] == v) =
          (trivStore.text_match "D" ["k"]).filter
            (fun p => count_keywords p.text ["k"] == v)) ∧
      count_keywords "Foo foo FOO" ["foo"] = 3 ∧
      count_keywords "ab ab" ["ab", "b"] = 4) :=
  ⟨by simp, claim_C7_keyword_scoring trivStore "D" ["k"] (by simp)⟩

/-- C5: when a chunk number occurs both among the top-20 keyword-ranked
chunks and among the semantic chunks, the deduplicated hybrid result keeps
the keyword-origin copy: the kept payload with that chunk number is the first
keyword-origin payload carrying it, it is unique among the kept payloads, and
its formatted text and page are emitted — a consequence of keyword chunks
preceding semantic chunks in the concatenation and the chunk-number sort
being stable. -/
theorem claim_C5_keyword_copy_wins (store : PointStore)
    (query document_id : String) (keywords : List String) (n : Nat)
    (hk : n ∈ ((sortedKeywordChunks store document_id keywords).take 20).map
      Payload.chunk_number)
    (hs : n ∈ (semanticResponse store query document_id).map
      Payload.chunk_number) :
    ∃ p ∈ (sortedKeywordChunks store document_id keywords).take 20,
      p.chunk_number = n ∧
      p ∈ keptPayloads [] (combinedSortedChunks store query document_id keywords) ∧
      (∀ q ∈ keptPayloads [] (combinedSortedChunks store query document_id keywords),
        q.chunk_number = n → q = p) ∧
      formatChunk p ∈ hybrid_search store query document_id keywords := by
  rcases List.mem_map.mp hk with ⟨p0, hp0kw, hp0n⟩
  have hfil0 : p0 ∈ ((sortedKeywordChunks store document_id keywords).take 20).filter
      (fun r => r.chunk_number == n) :=
    List.mem_filter.mpr ⟨hp0kw, by simp [hp0n]⟩
  have hne : ((sortedKeywordChunks store document_id keywords).take 20).filter
      (fun r => r.chunk_number == n) ≠ [] := by
    intro hnil
    rw [hnil] at hfil0
    simp at hfil0
  obtain ⟨p, t, hpt⟩ := List.exists_cons_of_ne_nil hne
  have hpmem : p ∈ ((sortedKeywordChunks store document_id keywords).take 20).filter
      (fun r => r.chunk_number == n) := by
    rw [hpt]
    exact List.mem_cons_self _ _
  have hpkw : p ∈ (sortedKeywordChunks store document_id keywords).take 20 :=
    List.mem_of_mem_filter hpmem
  have hpn : p.chunk_number = n := by
    simpa using List.of_mem_filter hpmem
  have hstab : (combinedSortedChunks store query document_id keywords).filter
      (fun r => r.chunk_number == n) =
      (combinedChunks store query document_id keywords).filter
        (fun r => r.chunk_number == n) :=
    filter_mergeSort_of_ties byChunkNumber byChunkNumber_trans byChunkNumber_total
      (fun r => r.chunk_number == n)
      (fun a b ha hb => by
        simp only [beq_iff_eq] at ha hb
        simp [byChunkNumber, ha, hb])
      (combinedChunks store query document_id keywords)
  have hfind : (combinedSortedChunks store query document_id keywords).find?
      (fun r => r.chunk_number == n) = some p := by
    rw [find?_eq_head?_filter, hstab]
    have happ : (combinedChunks store query document_id keywords).filter
        (fun r => r.chunk_number == n) =
        ((sortedKeywordChunks store document_id keywords).take 20).filter
            (fun r => r.chunk_number == n) ++
          (semanticResponse store query document_id).filter
            (fun r => r.chunk_number == n) := List.filter_append _ _
    rw [happ, hpt]
    rfl
  have hpsorted : p ∈ combinedSortedChunks store query document_id keywords :=
    List.mem_mergeSort.mpr (List.mem_append_left _ hpkw)
  have hpkept : p ∈ keptPayloads []
      (combinedSortedChunks store query document_id keywords) := by
    rcases keptPayloads_covers [] _ p hpsorted with hmem | ⟨q, hqkept, hqn⟩
    · simp at hmem
    · have hq := keptPayloads_find? [] _ q hqkept
      rw [hqn, hpn, hfind] at hq
      rw [Option.some.inj hq]
      exact hqkept
  refine ⟨p, hpkw, hpn, hpkept, ?_, ?_⟩
  · intro q hqkept hqn
    have hq := keptPayloads_find? [] _ q hqkept
    rw [hqn, hfind] at hq
    exact (Option.some.inj hq).symm
  · have hmap : hybrid_search store query document_id keywords =
        (keptPayloads []
          (combinedSortedChunks store query document_id keywords)).map formatChunk :=
      dedupFormat_eq_map [] _
    rw [hmap]
    exact List.mem_map_of_mem formatChunk hpkept

/-- Witness for C5: in the tie-breaking store, chunk number 1 occurs both in
the keyword top-20 and among the semantic chunks, and the theorem applies. -/
theorem claim_C5_keyword_copy_wins_witness :
    (1 ∈ ((sortedKeywordChunks storeC5 "D" ["foo"]).take 20).map
      Payload.chunk_number) ∧
    (1 ∈ (semanticResponse storeC5 "q" "D").map Payload.chunk_number) ∧
    (∃ p ∈ (sortedKeywordChunks storeC5 "D" ["foo"]).take 20,
      p.chunk_number = 1 ∧
      p ∈ keptPayloads [] (combinedSortedChunks storeC5 "q" "D" ["foo"]) ∧
      (∀ q ∈ keptPayloads [] (combinedSortedChunks storeC5 "q" "D" ["foo"]),
        q.chunk_number = 1 → q = p) ∧
      formatChunk p ∈ hybrid_search storeC5 "q" "D" ["foo"]) := by
  have h1 : sortedKeywordChunks storeC5 "D" ["foo"] = [pK1] := by
    simp [sortedKeywordChunks, storeC5]
  have hk : 1 ∈ ((sortedKeywordChunks storeC5 "D" ["foo"]).take 20).map
      Payload.chunk_number := by
    rw [h1]
    decide
  have hs : 1 ∈ (semanticResponse storeC5 "q" "D").map Payload.chunk_number := by
    decide
  exact ⟨hk, hs, claim_C5_keyword_copy_wins storeC5 "q" "D" ["foo"] 1 hk hs⟩

end KnowledgeTable
